import Mathlib

/-!
Verification of `backprop.py` (translational-DBN): a multi-layer perceptron
trained by backprop with a hand-ported conjugate-gradient line-search
optimizer (`NeuralNet.minimize`, ported from Rasmussen's `minimize.m`).

Shallow embedding conventions:
* numpy float arrays are modelled over `ℚ` (exact rational arithmetic);
  1-D arrays are `List ℚ`, 2-D arrays are `List (List ℚ)` in row-major order.
* Float `nan`/`inf` produced by a zero denominator or the square root of a
  negative number is modelled by guarding on exactly those conditions (the
  Python code tests `np.isnan`/`np.isinf` right after each such expression).
* `np.sqrt` is modelled by `Rat.sqrt` (exact on perfect squares; the concrete
  runs below never take a square root of a non-square).
* The elementwise logistic nonlinearity is not rational, so definitions that
  apply it are parameterized by an arbitrary scalar map `σ : ℚ → ℚ`; every
  theorem about them holds for all `σ`, hence for the real logistic.
-/

/-! ## Vector and matrix primitives (numpy-style, row-major) -/

/-- Dot product of two 1-D arrays, `np.dot(a, b)`. -/
def dotQ (a b : List ℚ) : ℚ := (List.zipWith (· * ·) a b).sum

/-- Elementwise sum of two 1-D arrays. -/
def vadd (a b : List ℚ) : List ℚ := List.zipWith (· + ·) a b

/-- Elementwise difference of two 1-D arrays. -/
def vsub (a b : List ℚ) : List ℚ := List.zipWith (· - ·) a b

/-- Scalar times 1-D array. -/
def smul (c : ℚ) (v : List ℚ) : List ℚ := v.map (c * ·)

/-- Elementwise negation, `-v`. -/
def vneg (v : List ℚ) : List ℚ := v.map (fun x => -x)

/-- numpy broadcasting of `c / v`: the scalar divided by each entry. -/
def sdiv (c : ℚ) (v : List ℚ) : List ℚ := v.map (fun x => c / x)

/-- Transpose of a row-major 2-D array. -/
def transposeM (A : List (List ℚ)) : List (List ℚ) :=
  (List.range (A.headD []).length).map (fun j => A.map (fun row => row.getD j 0))

/-- Matrix product `np.dot(A, B)` (row-major). -/
def matMul (A B : List (List ℚ)) : List (List ℚ) :=
  A.map (fun row => (transposeM B).map (fun col => dotQ row col))

/-- Elementwise (Hadamard) product of two 2-D arrays. -/
def hadamard (A B : List (List ℚ)) : List (List ℚ) :=
  List.zipWith (List.zipWith (· * ·)) A B

/-- `1.0 - A` elementwise. -/
def oneMinus (A : List (List ℚ)) : List (List ℚ) := A.map (fun r => r.map (fun x => 1 - x))

/-- `A[:, -1]`: the last column of a 2-D array, as a 1-D array. -/
def lastColumn (A : List (List ℚ)) : List ℚ := A.map (fun r => r.getLast?.getD 0)

/-- `A[:, :-1]`: all but the last column of a 2-D array. -/
def dropLastColumn (A : List (List ℚ)) : List (List ℚ) := A.map (fun r => r.dropLast)

/-! ## The data model: `Layer` (backprop.py lines 496-510) -/

/-- Activation tag: the `hidtype` string, either `"sigmoid"` or `"gaussian"`
(identity/pass-through). -/
inductive HidType where
  | sigmoid
  | gaussian
deriving DecidableEq

/-- A hidden layer: weight matrix `W : (in, out)`, bias vector `hbias : (out,)`,
the number of hidden units and the activation tag, as in `class Layer`. -/
structure Layer where
  W : List (List ℚ)
  hbias : List ℚ
  nHidden : ℕ
  hidtype : HidType
deriving DecidableEq

/-- The weight matrix of a numpy layer is rectangular: every row has the
column count reported by `W.shape`. -/
def rectangular (l : Layer) : Prop := ∀ r ∈ l.W, r.length = (l.W.headD []).length

instance (l : Layer) : Decidable (rectangular l) := by
  unfold rectangular; infer_instance

/-! ## Parameter flattening (doBackprop, lines 200-207 and 226-233)

`doBackprop` flattens each layer's row-major weight matrix followed by its
bias into one vector `v`, and after optimization writes `v` back using each
layer's recorded shape.  `reshape v h w` is numpy's row-major
`v.reshape((h, w))`. -/

/-- Row-major `v.reshape((h, w))`. -/
def reshape : List ℚ → ℕ → ℕ → List (List ℚ)
  | _, 0, _ => []
  | v, h + 1, w => v.take w :: reshape (v.drop w) h w

/-- Lines 201-207: `v.extend(w.reshape(h*w).tolist()); v.extend(b.tolist())`
for each layer in order. -/
def flattenNet : List Layer → List ℚ
  | [] => []
  | l :: rest => l.W.flatten ++ l.hbias ++ flattenNet rest

/-- Lines 226-233: slice `v[ind:ind+h*w].reshape((h,w))` and `v[ind:ind+b]`
back into each layer, advancing `ind`; shapes are read off the current net. -/
def unflattenNet : List Layer → List ℚ → List Layer
  | [], _ => []
  | l :: rest, v =>
      let h := l.W.length
      let w := (l.W.headD []).length
      let b := l.hbias.length
      { l with W := reshape (v.take (h * w)) h w,
               hbias := (v.drop (h * w)).take b } ::
        unflattenNet rest (v.drop (h * w + b))

/-- Total parameter count: sum over layers of `in*out + out`. -/
def netSize (net : List Layer) : ℕ :=
  (net.map (fun l => l.W.length * (l.W.headD []).length + l.hbias.length)).sum

lemma flatten_length_rect (W : List (List ℚ)) (w : ℕ) (h : ∀ r ∈ W, r.length = w) :
    W.flatten.length = W.length * w := by
  induction W with
  | nil => simp
  | cons r rest ih =>
      simp only [List.flatten_cons, List.length_append, List.length_cons]
      rw [h r (by simp), ih (fun r hr => h r (by simp [hr]))]
      ring

lemma reshape_flatten (W : List (List ℚ)) (w : ℕ) (h : ∀ r ∈ W, r.length = w) :
    reshape W.flatten W.length w = W := by
  induction W with
  | nil => rfl
  | cons r rest ih =>
      have hr : r.length = w := h r (by simp)
      simp only [List.flatten_cons, List.length_cons, reshape]
      rw [show (r ++ rest.flatten).take w = r by rw [← hr]; exact List.take_left _ _,
        show (r ++ rest.flatten).drop w = rest.flatten by
          rw [← hr]; exact List.drop_left _ _,
        ih (fun r hr => h r (by simp [hr]))]

lemma flatten_reshape (h : ℕ) (v : List ℚ) (w : ℕ) (hv : v.length = h * w) :
    (reshape v h w).flatten = v := by
  induction h generalizing v with
  | zero =>
      have : v = [] := List.eq_nil_of_length_eq_zero (by simpa using hv)
      simp [this, reshape]
  | succ h ih =>
      simp only [reshape, List.flatten_cons]
      rw [ih (v.drop w) (by simp [hv, Nat.succ_mul]), List.take_append_drop]

lemma unflatten_flatten (net : List Layer) (hrect : ∀ l ∈ net, rectangular l) :
    unflattenNet net (flattenNet net) = net := by
  induction net with
  | nil => rfl
  | cons l rest ih =>
      have hl : rectangular l := hrect l (by simp)
      have hlen : l.W.flatten.length = l.W.length * (l.W.headD []).length :=
        flatten_length_rect _ _ hl
      have hflat : flattenNet (l :: rest) = l.W.flatten ++ (l.hbias ++ flattenNet rest) := by
        simp [flattenNet]
      simp only [unflattenNet, hflat]
      rw [show (l.W.flatten ++ (l.hbias ++ flattenNet rest)).take
            (l.W.length * (l.W.headD []).length) = l.W.flatten by
          rw [← hlen]; exact List.take_left _ _,
        show (l.W.flatten ++ (l.hbias ++ flattenNet rest)).drop
            (l.W.length * (l.W.headD []).length) = l.hbias ++ flattenNet rest by
          rw [← hlen]; exact List.drop_left _ _,
        List.take_left, reshape_flatten l.W _ hl]
      have hdrop : (l.W.flatten ++ (l.hbias ++ flattenNet rest)).drop
          (l.W.length * (l.W.headD []).length + l.hbias.length) = flattenNet rest := by
        rw [← hlen, ← List.length_append l.W.flatten l.hbias, ← List.append_assoc,
          List.drop_left]
      rw [hdrop, ih (fun l hl => hrect l (by simp [hl]))]

lemma flatten_unflatten (net : List Layer) (v : List ℚ) (hlen : v.length = netSize net) :
    flattenNet (unflattenNet net v) = v := by
  induction net generalizing v with
  | nil =>
      have : v = [] := List.eq_nil_of_length_eq_zero (by simpa [netSize] using hlen)
      simp [this, unflattenNet, flattenNet]
  | cons l rest ih =>
      have hsz : netSize (l :: rest) =
          l.W.length * (l.W.headD []).length + l.hbias.length + netSize rest := by
        simp [netSize]
      rw [hsz] at hlen
      simp only [unflattenNet, flattenNet]
      rw [flatten_reshape _ _ _ (by rw [List.length_take]; omega),
        ih _ (by simp [hlen])]
      have h1 : (v.drop (l.W.length * (l.W.headD []).length)).take l.hbias.length ++
          v.drop (l.W.length * (l.W.headD []).length + l.hbias.length) =
          v.drop (l.W.length * (l.W.headD []).length) := by
        rw [← List.drop_drop, List.take_append_drop]
      rw [List.append_assoc, h1, List.take_append_drop]

/-! ## Forward evaluator with chunking (get_activation, lines 59-80)

`get_activation` preallocates `hid`, builds `breaks = range(0, rows, 128)`
plus a final entry `rows`, and writes `activation(data[s:e] · W + hbias)`
into each consecutive slice `hid[s:e]`.  Writing the chunk outputs into
consecutive disjoint slices of the preallocated buffer is modelled as
concatenation of the per-chunk outputs.  The affine map and the nonlinearity
act row by row, so a chunk's output is the rowwise map over the chunk. -/

/-- One output row of `np.dot(chunk, W) + hbias` for the input row `row`. -/
def affineRow (W : List (List ℚ)) (hbias : List ℚ) (row : List ℚ) : List ℚ :=
  vadd ((transposeM W).map (fun col => dotQ row col)) hbias

/-- Lines 76-79: apply the layer nonlinearity elementwise — `act.logistic()`
for `"sigmoid"` (scalar map `σ`), pass-through otherwise. -/
def applyHid (σ : ℚ → ℚ) (t : HidType) (act : List ℚ) : List ℚ :=
  match t with
  | .sigmoid => act.map σ
  | .gaussian => act

/-- Process the consecutive slices `[b1:b2]` given by adjacent entries of the
break list (lines 72-79), concatenating the chunk outputs. -/
def chunkApply (f : List ℚ → List ℚ) (data : List (List ℚ)) : List ℕ → List (List ℚ)
  | b1 :: b2 :: rest => ((data.drop b1).take (b2 - b1)).map f ++ chunkApply f data (b2 :: rest)
  | _ => []

/-- Lines 69-80: chunked forward pass of one layer.  The break list is
Python's `range(0, rows, 128)` (as `List.range' 0 ⌈rows/128⌉ 128`) with
`rows` appended. -/
def get_activation (σ : ℚ → ℚ) (l : Layer) (data : List (List ℚ)) : List (List ℚ) :=
  chunkApply (fun row => applyHid σ l.hidtype (affineRow l.W l.hbias row)) data
    (List.range' 0 ((data.length + 127) / 128) 128 ++ [data.length])

/-- Modelled from the spec: the whole-batch single pass
`activation(input · W + bias)`, with no chunking. -/
def fullActivation (σ : ℚ → ℚ) (l : Layer) (data : List (List ℚ)) : List (List ℚ) :=
  data.map (fun row => applyHid σ l.hidtype (affineRow l.W l.hbias row))

lemma chunkApply_cover (f : List ℚ → List ℚ) (data : List (List ℚ)) :
    ∀ (k s : ℕ), data.length ≤ s + k * 128 →
      (k = 0 → data.length ≤ s) →
      (∀ j, j < k → s + j * 128 < data.length) →
      chunkApply f data (List.range' s k 128 ++ [data.length]) = (data.drop s).map f := by
  intro k
  induction k with
  | zero =>
      intro s _ h0 _
      have : data.drop s = [] := List.drop_eq_nil_of_le (h0 rfl)
      simp [chunkApply, this]
  | succ k ih =>
      intro s hcov _ hin
      rw [List.range'_succ, List.cons_append]
      cases k with
      | zero =>
          simp only [List.range', List.nil_append, chunkApply]
          have : (data.drop s).take (data.length - s) = data.drop s := by
            apply List.take_of_length_le
            simp
          rw [this]
          simp
      | succ k =>
          have ihr := ih (s + 128) (by omega)
            (by omega)
            (by intro j hj; have := hin (j + 1) (by omega); omega)
          rw [List.range'_succ, List.cons_append] at ihr
          rw [List.range'_succ, List.cons_append]
          simp only [chunkApply]
          rw [show s + 128 - s = 128 by omega, ihr, ← List.map_append]
          congr 1
          rw [show data.drop (s + 128) = (data.drop s).drop 128 by rw [List.drop_drop]]
          exact List.take_append_drop _ _

lemma get_activation_eq_full (σ : ℚ → ℚ) (l : Layer) (data : List (List ℚ)) :
    get_activation σ l data = fullActivation σ l data := by
  unfold get_activation fullActivation
  rcases Nat.eq_zero_or_pos data.length with h0 | hpos
  · have hnil : data = [] := List.eq_nil_of_length_eq_zero h0
    subst hnil
    rfl
  · rw [chunkApply_cover _ data ((data.length + 127) / 128) 0
      (by omega) (by omega) (by intro j hj; omega)]
    simp

/-! ## Loss & Gradient Engine pieces (backprop_gradient, lines 235-341) -/

/-- Line 289: `Ix *= np.tile(weights, (1, K)).reshape((n, K))`.
For a 1-D `weights` of length `n`, `np.tile(weights, (1, K))` lays `K`
end-to-end copies of the whole vector in a row, and the row-major reshape
to `(n, K)` then assigns entry `(i, k)` the value `weights[(i*K+k) % n]`. -/
def scaleDelta (Ix : List (List ℚ)) (weights : List ℚ) : List (List ℚ) :=
  let K := (Ix.headD []).length
  let tiled := reshape (List.flatten (List.replicate K weights)) Ix.length K
  List.zipWith (List.zipWith (· * ·)) Ix tiled

/-- Modelled from the spec: scale `δ_L` elementwise by the per-sample weight
broadcast across output columns — entry `(i, k)` becomes `weights[i] * δ[i,k]`. -/
def scaleDeltaSpec (Ix : List (List ℚ)) (weights : List ℚ) : List (List ℚ) :=
  List.zipWith (fun wi row => row.map (fun x => wi * x)) weights Ix

/-- Lines 312-315 and 318, sigmoid previous layer:
`Ix = gp.dot(Ix, gp.concatenate((W, biasr)).T) * acts[i] * (1.0 - acts[i])`
followed by `Ix = Ix[:, -1]` (the last column).  `actsAug` is the layer input
activation already augmented with the constant-1 column (line 296). -/
def propagateIx (Ix W : List (List ℚ)) (hbias : List ℚ)
    (actsAug : List (List ℚ)) : List ℚ :=
  lastColumn (hadamard (hadamard (matMul Ix (transposeM (W ++ [hbias]))) actsAug)
    (oneMinus actsAug))

/-- Modelled from the spec: `δ_prev = (δ · [W; bias]ᵀ)` restricted to the
non-bias columns, elementwise-multiplied by the sigmoid derivative
`a(1-a)` of the (non-augmented) input activation `acts`. -/
def propagateIxSpec (Ix W : List (List ℚ)) (hbias : List ℚ)
    (acts : List (List ℚ)) : List (List ℚ) :=
  hadamard (hadamard (dropLastColumn (matMul Ix (transposeM (W ++ [hbias])))) acts)
    (oneMinus acts)

/-! ## Mini-batch bounds (doBackprop, lines 190-194)

`for batch in range(0, n, batch_size)` with
`batchend = n if batch + 2*batch_size > n else batch + batch_size`. -/

/-- The `(batch, batchend)` pairs doBackprop slices out of the shuffled index. -/
def batchBounds (n bs : ℕ) : List (ℕ × ℕ) :=
  (List.range' 0 ((n + bs - 1) / bs) bs).map
    (fun b => (b, if n < b + 2 * bs then n else b + bs))

/-! ## numpy indexing used at line 198

`tmpW = self.weights[index[batch:batchend], :]` indexes with a row array and
a column slice.  numpy raises `IndexError: too many indices for array` when
an array's rank is smaller than the number of subscripts; `self.weights` is
the 1-D vector `np.ones((n,))` (line 111).  A raised `IndexError` is
modelled as `none`. -/

/-- A numpy array of rank 1 or 2. -/
inductive NpArray where
  | vec (v : List ℚ)
  | mat (m : List (List ℚ))
deriving DecidableEq

/-- `a[rows, :]`: basic/fancy indexing with two subscripts.  Defined for a
rank-2 array; on a rank-1 array numpy raises `IndexError` (`none`). -/
def indexRowsAllCols (a : NpArray) (rows : List ℕ) : Option NpArray :=
  match a with
  | .vec _ => none
  | .mat m => some (.mat (rows.map (fun i => m.getD i [])))

/-- Lines 196-198: select `tmpX`, `tmpT`, `tmpW` for the current mini-batch.
`data` and `targets` are 2-D; `weights` is the 1-D per-sample weight vector. -/
def selectBatch (data targets : List (List ℚ)) (weights : List ℚ) (idx : List ℕ) :
    Option (NpArray × NpArray × NpArray) := do
  let tmpX ← indexRowsAllCols (.mat data) idx
  let tmpT ← indexRowsAllCols (.mat targets) idx
  let tmpW ← indexRowsAllCols (.vec weights) idx
  return (tmpX, tmpT, tmpW)

/-! ## CG line-search optimizer (minimize, lines 343-492)

Ported structure of `NeuralNet.minimize`.  Constants (lines 365-370):
RHO = 0.01, SIG = 0.5, INT = 0.1, EXT = 3.0, MAX = 20 evaluations per line
search, RATIO = 100; `red = 1.0` (line 377).

The objective is a pure function `List ℚ → ℚ × List ℚ` returning the cost
and its gradient.  Two instrumentation counters are carried alongside the
source's variables: `evals` counts calls of the objective and `searches`
counts outer-loop iterations (line searches begun); they shadow no source
variable and influence nothing.

The run-length counter `i` is the source's `i`: incremented once per outer
iteration when `length > 0` (line 395), and once per objective evaluation
when `length < 0` (lines 388, 402, 428, 461).

Loops become fuel-indexed recursion.  The fuel is always sufficient: the
inner bracketing loop runs at most `M` times (its guard needs `M > 0` and
each pass decrements `M`), the `while True` loop at most `M + 1` times
(every non-breaking pass decrements `M` and a pass entered with `M = 0`
breaks), and the outer loop at most `|length|` times (each iteration
increases `i` by at least one, and the guard needs `i < |length|`). -/

/-- The objective callback: `fun(X, *args) -> (f, df)`. -/
abbrev Obj := List ℚ → ℚ × List ℚ

/-- The line-search-local mutable variables of `minimize`, plus the two
instrumentation counters. -/
structure LSState where
  X : List ℚ
  f2 : ℚ
  df2 : List ℚ
  d2 : ℚ
  f3 : ℚ
  d3 : ℚ
  z3 : ℚ
  z1 : ℚ
  limit : ℚ
  M : ℕ
  i : ℕ
  evals : ℕ

/-- The outer-loop state of `minimize` (`X, f1, df1, s, d1, z1, i, ls_failed,
fX`), plus instrumentation (`evals`, `searches`) and a `done` flag for the
`break` at line 484. -/
structure MState where
  X : List ℚ
  f1 : ℚ
  df1 : List ℚ
  s : List ℚ
  d1 : ℚ
  z1 : ℚ
  i : ℕ
  lsFailed : Bool
  fX : List ℚ
  evals : ℕ
  searches : ℕ
  done : Bool

/-- One pass of the inner bracketing loop body (lines 413-430).  A zero
denominator in the quadratic fit, a zero cubic leading coefficient or a
negative discriminant would produce float `inf`/`nan`, caught by line 420's
`isnan/isinf` test and replaced by bisection `z3/2`. -/
def bracketStep (fn : Obj) (neg : Bool) (s : List ℚ) (f1 : ℚ) (st : LSState) : LSState :=
  let z2a :=
    if st.f2 > f1 then
      let den := st.d3 * st.z3 + st.f2 - st.f3
      if den = 0 then st.z3 / 2 else st.z3 - (st.d3 * st.z3 * st.z3 / 2) / den
    else
      let A := 6 * (st.f2 - st.f3) / st.z3 + 3 * (st.d2 + st.d3)
      let B := 3 * (st.f3 - st.f2) - st.z3 * (st.d3 + 2 * st.d2)
      let disc := B * B - A * st.d2 * st.z3 * st.z3
      if A = 0 ∨ disc < 0 then st.z3 / 2 else (Rat.sqrt disc - B) / A
  let z2 := max (min z2a ((1/10) * st.z3)) ((1 - 1/10) * st.z3)
  let X := vadd st.X (smul z2 s)
  let fd := fn X
  { st with limit := st.z1, z1 := st.z1 + z2, X := X, f2 := fd.1, df2 := fd.2,
            M := st.M - 1, i := if neg then st.i + 1 else st.i,
            evals := st.evals + 1, d2 := dotQ fd.2 s, z3 := st.z3 - z2 }

/-- The inner bracketing loop (line 412):
`while ((f2 > f1+z1*RHO*d1) or (d2 > -SIG*d1)) and (M > 0)`. -/
def bracketLoop (fn : Obj) (neg : Bool) (s : List ℚ) (f1 d1 : ℚ) :
    ℕ → LSState → LSState
  | 0, st => st
  | fuel + 1, st =>
      if (st.f2 > f1 + st.z1 * (1/100) * d1 ∨ st.d2 > -(1/2) * d1) ∧ st.M ≠ 0 then
        bracketLoop fn neg s f1 d1 fuel (bracketStep fn neg s f1 st)
      else st

/-- The cubic-extrapolation tail of the `while True` body (lines 439-462).
A negative discriminant (float `nan`) or zero denominator (float `inf`) is
caught by line 442's test, as is a negative step; note line 455 keeps the
old `d3` (`f3, d3, z3 = (f2, d3, -z2)` in the source). -/
def extrapStep (fn : Obj) (neg : Bool) (s : List ℚ) (st : LSState) : LSState :=
  let A := 6 * (st.f2 - st.f3) / st.z3 + 3 * (st.d2 + st.d3)
  let B := 3 * (st.f3 - st.f2) - st.z3 * (st.d3 + 2 * st.d2)
  let disc := B * B - A * st.d2 * st.z3 * st.z3
  let bad := disc < 0 ∨ B + Rat.sqrt disc = 0
  let z2raw := -st.d2 * st.z3 * st.z3 / (B + Rat.sqrt disc)
  let z2 :=
    if bad ∨ z2raw < 0 then
      if st.limit < -(1/2) then st.z1 * (3 - 1) else (st.limit - st.z1) / 2
    else if st.limit > -(1/2) ∧ z2raw + st.z1 > st.limit then (st.limit - st.z1) / 2
    else if st.limit < -(1/2) ∧ z2raw + st.z1 > st.z1 * 3 then st.z1 * (3 - 1)
    else if z2raw < -st.z3 * (1/10) then -st.z3 * (1/10)
    else if st.limit > -(1/2) ∧ z2raw < (st.limit - st.z1) * (1 - 1/10) then
      (st.limit - st.z1) * (1 - 1/10)
    else z2raw
  let X := vadd st.X (smul z2 s)
  let fd := fn X
  { st with f3 := st.f2, z3 := -z2, z1 := st.z1 + z2, X := X,
            f2 := fd.1, df2 := fd.2, M := st.M - 1,
            i := if neg then st.i + 1 else st.i,
            evals := st.evals + 1, d2 := dotQ fd.2 s }

/-- The `while True` loop of one line search (lines 411-462).  Returns the
source's `success` flag and the final local state.  Called with fuel
`M + 1`, which suffices (see the section comment). -/
def lsLoop (fn : Obj) (neg : Bool) (s : List ℚ) (f1 d1 : ℚ) :
    ℕ → LSState → Bool × LSState
  | 0, st => (false, st)
  | fuel + 1, st =>
      let st := bracketLoop fn neg s f1 d1 st.M st
      if st.f2 > f1 + st.z1 * (1/100) * d1 ∨ st.d2 > -(1/2) * d1 then (false, st)
      else if st.d2 > (1/2) * d1 then (true, st)
      else if st.M = 0 then (false, st)
      else lsLoop fn neg s f1 d1 fuel (extrapStep fn neg s st)

/-- Lines 468-469: the direction update after a successful line search, as
written in the source —
`s = (np.dot(df2.T,df2)-np.dot(df1.T,df2)) / np.dot(np.dot(df1.T,df1),s) - df2`.
`np.dot(df1.T,df1)` is a scalar, so the denominator is the vector
`(df1ᵗdf1)·s` and the quotient broadcasts elementwise. -/
def prUpdate (s df1 df2 : List ℚ) : List ℚ :=
  vsub (sdiv (dotQ df2 df2 - dotQ df1 df2) (smul (dotQ df1 df1) s)) df2

/-- Modelled from the spec (and from `minimize.m`): the Polack-Ribiere
direction `s = ((gᵗg - g_prevᵗg)/(g_prevᵗg_prev))·s - g`, a scalar
coefficient times the old direction minus the new gradient. -/
def prUpdateSpec (s df1 df2 : List ℚ) : List ℚ :=
  vsub (smul ((dotQ df2 df2 - dotQ df1 df2) / dotQ df1 df1) s) df2

/-- The success branch (lines 464-478).  `ms` is the outer state with the
counters already carried over; `st` is the outer state before the line
search (holding the old `df1`, `s`, `d1`); `ls` is the line-search result.
`d2` here is the stale slope along the OLD direction (line 462); the
`d2 = df1'*s` recomputation of `minimize.m` is absent from the port.
The swap's `df2 = tmp` is dead after this point and is not recorded. -/
def successUpdate (st : MState) (ls : LSState) (ms : MState) : MState :=
  let f1 := ls.f2
  let s1 := prUpdate st.s st.df1 ls.df2
  let df1 := ls.df2
  let s2 := if ls.d2 > 0 then vneg df1 else s1
  let d2 := if ls.d2 > 0 then dotQ (vneg (vneg df1)) (vneg df1) else ls.d2
  let z1 := ls.z1 * min 100 (st.d1 / (d2 - 22251 / 10 ^ 312))
  { ms with X := ls.X, f1 := f1, df1 := df1, s := s2, d1 := d2, z1 := z1,
            lsFailed := false, fX := ms.fX ++ [f1], done := false }

/-- The failure branch (lines 479-490): restore the pre-search point; give
up (`done`) after two consecutive failures or when `i` exceeds the budget;
otherwise swap derivatives (`df1` becomes the gradient at the last evaluated
point), reset to steepest descent and `z1 = 1/(1-d1)` (`d1` is left stale,
as in the source). -/
def failureUpdate (len : ℤ) (st : MState) (ls : LSState) (ms : MState) : MState :=
  if st.lsFailed ∨ ls.i > len.natAbs then
    { ms with X := st.X, f1 := st.f1, df1 := st.df1, done := true }
  else
    { ms with X := st.X, f1 := st.f1, df1 := ls.df2, s := vneg ls.df2,
              z1 := 1 / (1 - st.d1), lsFailed := true, done := false }

/-- Lines 393-408: advance `i` (per line search for positive `length`, per
evaluation for negative), evaluate at `X + z1*s`, and set up the
line-search-local variables `f2, df2, d2, f3, d3, z3, M, limit, success`. -/
def mkLS0 (fn : Obj) (len : ℤ) (st : MState) : LSState :=
  let i1 := if 0 < len then st.i + 1 else st.i
  let X1 := vadd st.X (smul st.z1 st.s)
  let fd := fn X1
  let i2 := if len < 0 then i1 + 1 else i1
  let M : ℕ := if 0 < len then 20 else min 20 (len.natAbs - i2)
  { X := X1, f2 := fd.1, df2 := fd.2, d2 := dotQ fd.2 st.s,
    f3 := st.f1, d3 := st.d1, z3 := -st.z1, z1 := st.z1,
    limit := -1, M := M, i := i2, evals := st.evals + 1 }

/-- The whole line search of one outer iteration (lines 400-462). -/
def outerRun (fn : Obj) (len : ℤ) (st : MState) : Bool × LSState :=
  lsLoop fn (decide (len < 0)) st.s st.f1 st.d1 ((mkLS0 fn len st).M + 1)
    (mkLS0 fn len st)

/-- Carry the run counter and instrumentation out of the line search. -/
def carryCounters (st : MState) (ls : LSState) : MState :=
  { st with i := ls.i, evals := ls.evals, searches := st.searches + 1 }

/-- Dispatch on the line search's `success` flag (lines 464 and 479). -/
def outerFinish (len : ℤ) (st : MState) (r : Bool × LSState) : MState :=
  if r.1 then successUpdate st r.2 (carryCounters st r.2)
  else failureUpdate len st r.2 (carryCounters st r.2)

/-- One iteration of the outer `while i < abs(length)` loop (lines 393-490). -/
def outerStep (fn : Obj) (len : ℤ) (st : MState) : MState :=
  outerFinish len st (outerRun fn len st)

/-- The outer loop, with fuel `|length| + 1` (sufficient: each iteration
increases `i`, and the guard is `i < |length|`). -/
def outerLoop (fn : Obj) (len : ℤ) : ℕ → MState → MState
  | 0, st => st
  | fuel + 1, st =>
      if st.done then st
      else if st.i < len.natAbs then outerLoop fn len fuel (outerStep fn len st)
      else st

/-- Lines 377-391: initialization — evaluate once, count it when
`length < 0`, steepest-descent direction, `d1 = np.dot(-s.T, s)`,
`z1 = red/(1.0-d1)` with `red = 1.0`. -/
def initState (fn : Obj) (X : List ℚ) (len : ℤ) : MState :=
  let fd := fn X
  let s := vneg fd.2
  let d1 := dotQ (vneg s) s
  { X := X, f1 := fd.1, df1 := fd.2, s := s, d1 := d1, z1 := 1 / (1 - d1),
    i := if len < 0 then 1 else 0, lsFailed := false, fX := [],
    evals := 1, searches := 0, done := false }

/-- `NeuralNet.minimize(fun, X, args, length)` (lines 343-492).  The source
returns `(X, fX, i)`; those are the `X`, `fX` and `i` fields of the result,
with `evals`/`searches` as pure instrumentation. -/
def minimize (fn : Obj) (X : List ℚ) (len : ℤ) : MState :=
  outerLoop fn len (len.natAbs + 1) (initState fn X len)

/-- A concrete one-dimensional objective used to exercise `minimize`:
cost 1 and slope 1/2 at the start `[0]`, cost 9/10 and slope 1/8 at the
first trial point `[-2/5]`, flat elsewhere. -/
def objA : Obj := fun x =>
  if x = [0] then (1, [1/2])
  else if x = [-2/5] then (9/10, [1/8])
  else (0, [0])

/-! ## Concrete states arising when `minimize` is run on `objA`

Starting `minimize objA [0] len` with `len > 0`: the initial evaluation
gives `f1 = 1, df1 = [1/2]`, so `s = [-1/2]`, `d1 = -1/4`, `z1 = 4/5`; the
first trial point is `[0] + (4/5)·[-1/2] = [-2/5]` with `f2 = 9/10`,
`df2 = [1/8]`, `d2 = -1/16`.  Both Wolfe-Powell checks pass at once
(`9/10 ≤ 499/500` and `-1/16 > -1/8`), so the first line search succeeds
with no further evaluation. -/

def stA : MState := ⟨[0], 1, [1/2], [-1/2], -(1/4), 4/5, 0, false, [], 1, 0, false⟩

def lsA : LSState := ⟨[-2/5], 9/10, [1/8], -(1/16), 1, -(1/4), -(4/5), 4/5, -1, 20, 1, 2⟩

def msA : MState := ⟨[0], 1, [1/2], [-1/2], -(1/4), 4/5, 1, false, [], 2, 1, false⟩

lemma initStateA (len : ℤ) (hne : ¬ len < 0) : initState objA [0] len = stA := by
  norm_num [initState, stA, objA, vneg, dotQ, hne]

lemma outerRunA (len : ℤ) (hpos : 0 < len) (hne : decide (len < 0) = false) :
    outerRun objA len stA = (true, lsA) := by
  have hls0 : mkLS0 objA len stA = lsA := by
    norm_num [mkLS0, stA, lsA, objA, vadd, smul, dotQ, hpos, not_lt_of_gt hpos]
  have hb : bracketLoop objA false [-1/2] 1 (-(1/4)) 20 lsA = lsA := by
    norm_num [bracketLoop, lsA]
  unfold outerRun
  rw [hls0, show lsA.M = 20 from rfl, show stA.s = [-1/2] from rfl,
    show stA.f1 = (1:ℚ) from rfl, show stA.d1 = -(1/4) from rfl, hne]
  rw [lsLoop, show lsA.M = 20 from rfl, hb]
  rw [if_neg (by norm_num [lsA] :
      ¬ (lsA.f2 > 1 + lsA.z1 * (1 / 100) * -(1 / 4) ∨ lsA.d2 > -(1 / 2) * -(1 / 4)))]
  rw [if_pos (by norm_num [lsA] : lsA.d2 > 1 / 2 * -(1 / 4))]

lemma outerStepA (len : ℤ) (hpos : 0 < len) (hne : decide (len < 0) = false) :
    outerStep objA len stA = successUpdate stA lsA msA := by
  unfold outerStep outerFinish
  rw [outerRunA len hpos hne, if_pos rfl]
  rfl

lemma minimizeA : minimize objA [0] 1 = successUpdate stA lsA msA := by
  unfold minimize
  rw [initStateA 1 (by decide), show Int.natAbs 1 + 1 = 1 + 1 from rfl, outerLoop,
    if_neg (by decide : ¬ stA.done = true),
    if_pos (by decide : stA.i < Int.natAbs 1),
    outerStepA 1 (by decide) (by decide)]
  rw [outerLoop,
    if_neg (show ¬ (successUpdate stA lsA msA).done = true from fun h => nomatch h),
    if_neg (show ¬ (successUpdate stA lsA msA).i < Int.natAbs 1 from by decide)]

/-! ## The claims -/

/-- C1.  The claim states that during the backward pass the error signal
propagated to the previous layer is `δ·[W; bias]ᵀ` restricted to the
non-bias columns, elementwise-multiplied by the activation derivative, and
that consequently `backprop_gradient` returns the exact analytic gradient.
The code instead keeps ONLY the bias column: line 318 reads `Ix = Ix[:,-1]`
rather than `Ix[:,:-1]`.  At `Ix = [[1]]`, `W = [[3]]`, `bias = [5]`,
input activation `[[1/2]]` (augmented `[[1/2, 1]]`), the code propagates
`[0]` — the bias column, which the sigmoid factor `a(1-a)` kills because
the augmented column is constantly `1` — while the claimed formula gives
`[[3/4]]`. -/
theorem backprop_propagation_keeps_only_bias_column :
    propagateIx [[1]] [[3]] [5] [[1/2, 1]] = [0] ∧
    propagateIxSpec [[1]] [[3]] [5] [[1/2]] = [[3/4]] := by
  constructor
  · simp [propagateIx, lastColumn, hadamard, matMul, transposeM, dotQ, oneMinus,
      List.range_succ]
  · simp [propagateIxSpec, dropLastColumn, hadamard, matMul, transposeM, dotQ, oneMinus,
      List.range_succ]
    norm_num

/-- C2.  The claim states the new direction after a successful line search
is the Polack-Ribiere vector `((gᵗg - g_prevᵗg)/(g_prevᵗg_prev))·s - g`.
The port misplaces the parentheses: line 468-469 divides the scalar
numerator elementwise by the VECTOR `(g_prevᵗg_prev)·s`.  At `s = [-1,-2]`,
`g_prev = [1,1]`, `g = [1,2]` the code produces `[-2, -5/2]` whereas the
Polack-Ribiere direction is `[-2, -4]`. -/
theorem pr_direction_update_divides_elementwise :
    prUpdate [-1, -2] [1, 1] [1, 2] = [-2, -5/2] ∧
    prUpdateSpec [-1, -2] [1, 1] [1, 2] = [-2, -4] ∧
    prUpdate [-1, -2] [1, 1] [1, 2] ≠ prUpdateSpec [-1, -2] [1, 1] [1, 2] := by
  refine ⟨?_, ?_, ?_⟩ <;> norm_num [prUpdate, prUpdateSpec, vsub, sdiv, smul, dotQ]

/-- C3 counterexample.  The claim says a positive `length` caps the total
number of objective evaluations.  Running `minimize` on `objA` from `[0]`
with `length = 1` evaluates the objective twice (once at initialization,
once inside the line search) while the returned counter `i` is 1: the
number of objective evaluations exceeds a positive `length`, which counts
line searches instead. -/
theorem minimize_positive_length_exceeds_eval_cap :
    (minimize objA [0] 1).evals = 2 ∧ (minimize objA [0] 1).i = 1 := by
  rw [minimizeA]
  exact ⟨rfl, rfl⟩

/-- C4.  The claim states the output error signal is scaled entrywise by the
per-sample weight broadcast across output columns, `weights[i] * δ[i,k]`.
Line 289 instead tiles the weight vector end-to-end and reshapes row-major,
scaling entry `(i,k)` by `weights[(i*K+k) % n]`.  With two samples, two
output columns, `weights = [2,3]` and unit `δ`, the code yields
`[[2,3],[2,3]]` but the claimed broadcast yields `[[2,2],[3,3]]`. -/
theorem delta_weight_scaling_tile_mismatch :
    scaleDelta [[1, 1], [1, 1]] [2, 3] = [[2, 3], [2, 3]] ∧
    scaleDeltaSpec [[1, 1], [1, 1]] [2, 3] = [[2, 2], [3, 3]] ∧
    scaleDelta [[1, 1], [1, 1]] [2, 3] ≠ scaleDeltaSpec [[1, 1], [1, 1]] [2, 3] := by
  refine ⟨?_, ?_, ?_⟩ <;> simp [scaleDelta, scaleDeltaSpec, reshape]

/-- C5.  The claim says each epoch partitions the shuffled indices into
consecutive batches of 128 with the last batch absorbing the remainder, so
that no undersized batch runs and each index is used exactly once.  With
`n = 300` the loop produces the slices `[0,128), [128,300), [256,300)`:
after the absorbing batch `[128,300)` the loop keeps running, so rows
256-299 are processed twice and an undersized 44-row batch runs; the slice
sizes sum to 344 ≠ 300. -/
theorem doBackprop_batches_overlap_at_300 :
    batchBounds 300 128 = [(0, 128), (128, 300), (256, 300)] ∧
    ((batchBounds 300 128).map (fun p => p.2 - p.1)).sum = 344 := by
  constructor <;> decide

/-- C6.  The claim says `train` finishes without raising on every
well-formed input.  But `doBackprop` (line 198) indexes the rank-1
per-sample weight vector with two subscripts,
`self.weights[index[batch:batchend], :]`, which raises
`IndexError: too many indices for array` on the first mini-batch of every
run — here shown on the repository's own XOR demo data — and in general on
any rank-1 weight vector. -/
theorem doBackprop_weight_selection_raises :
    selectBatch [[0, 0], [0, 1], [1, 0], [1, 1]] [[0], [1], [1], [0]]
      [1, 1, 1, 1] [0, 1, 2, 3] = none ∧
    ∀ (w : List ℚ) (idx : List ℕ), indexRowsAllCols (NpArray.vec w) idx = none :=
  ⟨rfl, fun _ _ => rfl⟩

/-- C7.  The claim states that after a Polack-Ribiere update the optimizer
resets to steepest descent whenever the slope along the NEW direction at
the new gradient is positive, so every line search starts along a descent
direction.  The port dropped `minimize.m`'s `d2 = df1'*s;` recomputation:
line 473 tests the stale `d2` (slope along the OLD direction).  Running
`minimize objA [0] 2`: the first line search succeeds (`fX = [9/10]`), the
stale `d2 = -1/16 ≤ 0` suppresses the reset, yet the new state has
`df1 = [1/8]`, `s = [1/4]` with slope `df1·s = 1/32 > 0` — the second line
search (the run is not done) starts along a non-descent direction. -/
theorem minimize_second_search_not_descent :
    (outerStep objA 2 (initState objA [0] 2)).fX = [9/10] ∧
    (outerStep objA 2 (initState objA [0] 2)).df1 = [1/8] ∧
    (outerStep objA 2 (initState objA [0] 2)).s = [1/4] ∧
    0 < dotQ (outerStep objA 2 (initState objA [0] 2)).df1
        (outerStep objA 2 (initState objA [0] 2)).s ∧
    (outerStep objA 2 (initState objA [0] 2)).done = false := by
  rw [initStateA 2 (by decide), outerStepA 2 (by decide) (by decide)]
  have hs : (successUpdate stA lsA msA).s = [1/4] := by
    unfold successUpdate
    dsimp only
    rw [if_neg (by norm_num [lsA] : ¬ lsA.d2 > 0)]
    norm_num [prUpdate, stA, lsA, sdiv, smul, vsub, dotQ]
  refine ⟨rfl, rfl, hs, ?_, rfl⟩
  rw [hs, show (successUpdate stA lsA msA).df1 = [1/8] from rfl]
  norm_num [dotQ]

/-- C8.  Flatten/unflatten round trip: for every dimensionally consistent
network, writing the flat vector back reproduces every layer exactly, and
flattening what was unflattened returns the vector. -/
theorem flatten_unflatten_round_trip (net : List Layer) (v : List ℚ)
    (hrect : ∀ l ∈ net, rectangular l) (hlen : v.length = netSize net) :
    unflattenNet net (flattenNet net) = net ∧ flattenNet (unflattenNet net v) = v :=
  ⟨unflatten_flatten net hrect, flatten_unflatten net v hlen⟩

/-- A small concrete network and matching flat vector for the round trip. -/
def sampleNet : List Layer :=
  [⟨[[1, 2], [3, 4]], [5, 6], 2, .sigmoid⟩, ⟨[[7], [8]], [9], 1, .gaussian⟩]

def sampleVec : List ℚ := [10, 11, 12, 13, 14, 15, 16, 17, 18]

/-- Witness for C8 at `sampleNet` and `sampleVec`. -/
theorem flatten_unflatten_round_trip_witness :
    ((∀ l ∈ sampleNet, rectangular l) ∧ sampleVec.length = netSize sampleNet) ∧
    (unflattenNet sampleNet (flattenNet sampleNet) = sampleNet ∧
      flattenNet (unflattenNet sampleNet sampleVec) = sampleVec) :=
  ⟨⟨by decide, by decide⟩,
    flatten_unflatten_round_trip sampleNet sampleVec (by decide) (by decide)⟩

/-- C9.  Chunked versus unchunked forward pass: `get_activation`, which
processes the batch in row chunks of 128, agrees with the single
whole-batch pass `activation(input · W + bias)` on every input and for
every elementwise nonlinearity. -/
theorem get_activation_chunking_equiv (σ : ℚ → ℚ) (l : Layer)
    (data : List (List ℚ)) :
    get_activation σ l data = fullActivation σ l data :=
  get_activation_eq_full σ l data

/-- C10.  With a zero budget, `minimize` still evaluates the objective
exactly once (the initialization evaluation at line 386), and returns the
starting vector unchanged, an empty loss trace, and count 0. -/
theorem minimize_zero_length_single_eval (fn : Obj) (X : List ℚ) :
    (minimize fn X 0).X = X ∧ (minimize fn X 0).fX = [] ∧
    (minimize fn X 0).i = 0 ∧ (minimize fn X 0).evals = 1 :=
  ⟨rfl, rfl, rfl, rfl⟩

/-! ## Budget accounting of `minimize` (claim C3)

In the source, `i` is incremented once per outer iteration when
`length > 0` (line 395) and once per objective evaluation when `length < 0`
(lines 388, 402, 428, 461).  For `length < 0` the coupling `M + i ≤ -length`
(line 408) bounds the evaluations; for `length > 0` the guard
`i < abs(length)` bounds the line searches. -/

lemma bracketStep_i (fn : Obj) (neg : Bool) (s : List ℚ) (f1 : ℚ) (st : LSState) :
    (bracketStep fn neg s f1 st).i = if neg then st.i + 1 else st.i := rfl

lemma bracketStep_evals (fn : Obj) (neg : Bool) (s : List ℚ) (f1 : ℚ) (st : LSState) :
    (bracketStep fn neg s f1 st).evals = st.evals + 1 := rfl

lemma bracketStep_M (fn : Obj) (neg : Bool) (s : List ℚ) (f1 : ℚ) (st : LSState) :
    (bracketStep fn neg s f1 st).M = st.M - 1 := rfl

lemma extrapStep_i (fn : Obj) (neg : Bool) (s : List ℚ) (st : LSState) :
    (extrapStep fn neg s st).i = if neg then st.i + 1 else st.i := rfl

lemma extrapStep_evals (fn : Obj) (neg : Bool) (s : List ℚ) (st : LSState) :
    (extrapStep fn neg s st).evals = st.evals + 1 := rfl

lemma extrapStep_M (fn : Obj) (neg : Bool) (s : List ℚ) (st : LSState) :
    (extrapStep fn neg s st).M = st.M - 1 := rfl

lemma bracketLoop_neg_inv (fn : Obj) (s : List ℚ) (f1 d1 : ℚ) (L : ℕ) :
    ∀ (fuel : ℕ) (st : LSState), st.i = st.evals → st.i + st.M ≤ L →
      (bracketLoop fn true s f1 d1 fuel st).i = (bracketLoop fn true s f1 d1 fuel st).evals ∧
      (bracketLoop fn true s f1 d1 fuel st).i + (bracketLoop fn true s f1 d1 fuel st).M ≤ L := by
  intro fuel
  induction fuel with
  | zero => intro st h1 h2; exact ⟨h1, h2⟩
  | succ fuel ih =>
      intro st h1 h2
      rw [bracketLoop]
      split
      · next hc =>
          apply ih
          · rw [bracketStep_i, bracketStep_evals, if_pos rfl, h1]
          · rw [bracketStep_i, bracketStep_M, if_pos rfl]
            have hM : st.M ≠ 0 := hc.2
            omega
      · exact ⟨h1, h2⟩

lemma lsLoop_neg_inv (fn : Obj) (s : List ℚ) (f1 d1 : ℚ) (L : ℕ) :
    ∀ (fuel : ℕ) (st : LSState), st.i = st.evals → st.i + st.M ≤ L →
      ((lsLoop fn true s f1 d1 fuel st).2).i = ((lsLoop fn true s f1 d1 fuel st).2).evals ∧
      ((lsLoop fn true s f1 d1 fuel st).2).i + ((lsLoop fn true s f1 d1 fuel st).2).M ≤ L := by
  intro fuel
  induction fuel with
  | zero => intro st h1 h2; exact ⟨h1, h2⟩
  | succ fuel ih =>
      intro st h1 h2
      rw [lsLoop]
      have hb := bracketLoop_neg_inv fn s f1 d1 L st.M st h1 h2
      split
      · exact hb
      · split
        · exact hb
        · split
          · exact hb
          · next hM =>
              apply ih
              · rw [extrapStep_i, extrapStep_evals, if_pos rfl, hb.1]
              · rw [extrapStep_i, extrapStep_M, if_pos rfl]
                have := hb.2
                omega

lemma bracketLoop_pos_i (fn : Obj) (s : List ℚ) (f1 d1 : ℚ) :
    ∀ (fuel : ℕ) (st : LSState),
      (bracketLoop fn false s f1 d1 fuel st).i = st.i := by
  intro fuel
  induction fuel with
  | zero => intro st; rfl
  | succ fuel ih =>
      intro st
      rw [bracketLoop]
      split
      · rw [ih, bracketStep_i, if_neg (by simp)]
      · rfl

lemma lsLoop_pos_i (fn : Obj) (s : List ℚ) (f1 d1 : ℚ) :
    ∀ (fuel : ℕ) (st : LSState),
      ((lsLoop fn false s f1 d1 fuel st).2).i = st.i := by
  intro fuel
  induction fuel with
  | zero => intro st; rfl
  | succ fuel ih =>
      intro st
      rw [lsLoop]
      have hb := bracketLoop_pos_i fn s f1 d1 st.M st
      split
      · exact hb
      · split
        · exact hb
        · split
          · exact hb
          · rw [ih, extrapStep_i, if_neg (by simp), hb]

lemma carryCounters_fields (st : MState) (ls : LSState) :
    (carryCounters st ls).i = ls.i ∧ (carryCounters st ls).evals = ls.evals ∧
    (carryCounters st ls).searches = st.searches + 1 :=
  ⟨rfl, rfl, rfl⟩

lemma successUpdate_counters (st : MState) (ls : LSState) (ms : MState) :
    (successUpdate st ls ms).i = ms.i ∧ (successUpdate st ls ms).evals = ms.evals ∧
    (successUpdate st ls ms).searches = ms.searches :=
  ⟨rfl, rfl, rfl⟩

lemma failureUpdate_counters (len : ℤ) (st : MState) (ls : LSState) (ms : MState) :
    (failureUpdate len st ls ms).i = ms.i ∧ (failureUpdate len st ls ms).evals = ms.evals ∧
    (failureUpdate len st ls ms).searches = ms.searches := by
  unfold failureUpdate
  split <;> exact ⟨rfl, rfl, rfl⟩

lemma outerStep_counters (fn : Obj) (len : ℤ) (st : MState) :
    (outerStep fn len st).i = (outerRun fn len st).2.i ∧
    (outerStep fn len st).evals = (outerRun fn len st).2.evals ∧
    (outerStep fn len st).searches = st.searches + 1 := by
  unfold outerStep outerFinish
  split
  · exact (successUpdate_counters _ _ _)
  · exact (failureUpdate_counters _ _ _ _)

lemma mkLS0_i_pos (fn : Obj) (len : ℤ) (st : MState) (hpos : 0 < len) :
    (mkLS0 fn len st).i = st.i + 1 := by
  show (if len < 0 then (if 0 < len then st.i + 1 else st.i) + 1
    else (if 0 < len then st.i + 1 else st.i)) = st.i + 1
  rw [if_neg (by omega), if_pos hpos]

lemma mkLS0_i_neg (fn : Obj) (len : ℤ) (st : MState) (hneg : len < 0) :
    (mkLS0 fn len st).i = st.i + 1 := by
  show (if len < 0 then (if 0 < len then st.i + 1 else st.i) + 1
    else (if 0 < len then st.i + 1 else st.i)) = st.i + 1
  rw [if_pos hneg, if_neg (by omega)]

lemma mkLS0_evals (fn : Obj) (len : ℤ) (st : MState) :
    (mkLS0 fn len st).evals = st.evals + 1 := rfl

lemma mkLS0_M_neg (fn : Obj) (len : ℤ) (st : MState) (hneg : len < 0) :
    (mkLS0 fn len st).M = min 20 (len.natAbs - (st.i + 1)) := by
  show (if 0 < len then 20
    else min 20 (len.natAbs - (if len < 0 then (if 0 < len then st.i + 1 else st.i) + 1
      else (if 0 < len then st.i + 1 else st.i)))) = _
  rw [if_neg (by omega), if_pos hneg, if_neg (by omega)]

lemma outerStep_pos (fn : Obj) (len : ℤ) (st : MState) (hpos : 0 < len) :
    (outerStep fn len st).i = st.i + 1 ∧
    (outerStep fn len st).searches = st.searches + 1 := by
  obtain ⟨hi, _, hs⟩ := outerStep_counters fn len st
  refine ⟨?_, hs⟩
  rw [hi]
  unfold outerRun
  rw [decide_eq_false (by omega : ¬ len < 0), lsLoop_pos_i, mkLS0_i_pos fn len st hpos]

lemma outerStep_neg (fn : Obj) (len : ℤ) (st : MState) (hneg : len < 0)
    (h1 : st.i = st.evals) (h2 : st.i < len.natAbs) :
    (outerStep fn len st).i = (outerStep fn len st).evals ∧
    (outerStep fn len st).i ≤ len.natAbs := by
  obtain ⟨hi, he, _⟩ := outerStep_counters fn len st
  rw [hi, he]
  unfold outerRun
  rw [decide_eq_true hneg]
  have hls := lsLoop_neg_inv fn st.s st.f1 st.d1 len.natAbs
    ((mkLS0 fn len st).M + 1) (mkLS0 fn len st)
    (by rw [mkLS0_i_neg fn len st hneg, mkLS0_evals, h1])
    (by rw [mkLS0_i_neg fn len st hneg, mkLS0_M_neg fn len st hneg]; omega)
  exact ⟨hls.1, by omega⟩

lemma outerLoop_inv (fn : Obj) (len : ℤ) :
    ∀ (fuel : ℕ) (st : MState),
      st.i ≤ len.natAbs → (0 < len → st.i = st.searches) → (len < 0 → st.i = st.evals) →
      (outerLoop fn len fuel st).i ≤ len.natAbs ∧
      (0 < len → (outerLoop fn len fuel st).i = (outerLoop fn len fuel st).searches) ∧
      (len < 0 → (outerLoop fn len fuel st).i = (outerLoop fn len fuel st).evals) := by
  intro fuel
  induction fuel with
  | zero => intro st h1 h2 h3; exact ⟨h1, h2, h3⟩
  | succ fuel ih =>
      intro st h1 h2 h3
      rw [outerLoop]
      split
      · exact ⟨h1, h2, h3⟩
      · split
        · next hguard =>
            rcases lt_trichotomy len 0 with hneg | hzero | hpos
            · have hstep := outerStep_neg fn len st hneg (h3 hneg) hguard
              exact ih (outerStep fn len st) hstep.2 (fun h => by omega) (fun _ => hstep.1)
            · subst hzero
              simp at hguard
            · have hstep := outerStep_pos fn len st hpos
              refine ih (outerStep fn len st) ?_ (fun _ => ?_) (fun h => by omega)
              · omega
              · rw [hstep.1, hstep.2, h2 hpos]
        · exact ⟨h1, h2, h3⟩

/-- C3 (modes as the code has them).  `minimize` supports two budget modes:
a positive `length` makes the counter `i` count line searches (one per
outer iteration, capped by the loop guard), while a negative `length` makes
`i` count objective evaluations (bounded through `M = min(MAX, -length-i)`);
in both modes the returned `i` never exceeds `|length|` in the quantity the
mode counts. -/
theorem minimize_budget_modes (fn : Obj) (X : List ℚ) (len : ℤ) :
    (minimize fn X len).i ≤ len.natAbs ∧
    (0 < len → (minimize fn X len).i = (minimize fn X len).searches) ∧
    (len < 0 → (minimize fn X len).i = (minimize fn X len).evals) := by
  unfold minimize
  apply outerLoop_inv
  · show (if len < 0 then 1 else 0) ≤ len.natAbs
    split
    · next h => omega
    · omega
  · intro hpos
    show (if len < 0 then 1 else 0) = 0
    rw [if_neg (by omega)]
  · intro hneg
    show (if len < 0 then 1 else 0) = 1
    rw [if_pos hneg]

/-- Witness for C3's theorem in the negative (evaluation-counting) mode. -/
theorem minimize_budget_modes_witness :
    (minimize objA [0] (-3)).i ≤ 3 ∧
    (minimize objA [0] (-3)).i = (minimize objA [0] (-3)).evals :=
  ⟨(minimize_budget_modes objA [0] (-3)).1,
    (minimize_budget_modes objA [0] (-3)).2.2 (by decide)⟩
